import Mathlib

/-
Verification of `paired_subsampling.py` (class `PairedSubsample`).

The program performs depth-targeted subsampling of paired-end alignment
records.  Its core is:

  * `calculate_target_read_number` (lines 67-97): a pure arithmetic function
    turning (read length, adjustment factor, target depth, paired flag) into
    a target read count, using Python `round` twice;
  * `get_unique_query_names` (lines 100-124): a single streaming pass that
    collects query names in first-occurrence order, skipping names already
    seen;
  * the sampling step `set(sample(unique_query_list, target_read_count))`
    (line 228), drawing a uniform subset without replacement;
  * the write pass (lines 231-237): a second streaming pass that keeps
    exactly the records whose query name is in the sampled set, clearing
    flag bit 0x400 (the duplicate marker) when set, preserving order;
  * the driver `__call__` (lines 199-248) which sequences these and raises
    `ValueError` when the target count exceeds the unique-name count
    (lines 225-226), before any output record is written.

Embedding choices:
  * Python floats are modelled by exact rationals (`ℚ`); Python `round`
    (round-half-to-even) is `pyRound` below.
  * The BAM stream is modelled as a `List` of records; a record carries its
    query name, its integer flag field, and an opaque payload standing for
    all the remaining fields.
  * `random.sample` draws from its own global random state; it is modelled
    by an executable without-replacement selection driven by an explicit
    stream of random numbers (`rand : ℕ → ℕ`), picking one position of the
    remaining population per step.
  * Python exceptions become `Except` values.  The external `gatk`
    subprocess calls (`mark_duplicates`, `collect_wgs_metric`) are outside
    the core and are not modelled.
-/

namespace PairedSubsampling

/-- Python's built-in `round`, on exact rationals: round half to even
(banker's rounding), as applied twice in `calculate_target_read_number`. -/
def pyRound (q : ℚ) : ℤ :=
  if q - ⌊q⌋ < 1/2 then ⌊q⌋
  else if 1/2 < q - ⌊q⌋ then ⌊q⌋ + 1
  else if Even ⌊q⌋ then ⌊q⌋ else ⌊q⌋ + 1

/-- Errors that `calculate_target_read_number` can raise.  The source raises
a Python `ZeroDivisionError` when `read_len = 0`; `invalidArgument` is the
failure named by the spec, included so that claims about it can be stated. -/
inductive CalcError where
  | zeroDivisionError
  | invalidArgument
deriving DecidableEq

/-- `self.human_base = 3.1e9` (line 38), the fixed hg38 genome base size. -/
def human_base : ℚ := 3.1e9

/-- Lines 93-97 of the source:
`read_val = 2 if paired else 1`;
`read_count = round(self.human_base / read_len)`;
`read_count = round((read_count * adjust_val * target_depth)/read_val)`.
Python raises `ZeroDivisionError` on `read_len = 0`; there is no other
validation of the arguments. -/
def calculate_target_read_number (read_len : ℤ) (adjust_val target_depth : ℚ)
    (paired : Bool) : Except CalcError ℤ :=
  if read_len = 0 then .error .zeroDivisionError
  else .ok (pyRound ((pyRound (human_base / read_len) : ℚ) * adjust_val * target_depth /
    (if paired then (2 : ℚ) else 1)))

/-- The formula exactly as the spec words it: `divisor = paired ? 2 : 1`;
`base_reads = round(genome_base_size / read_len)`;
`result = round(base_reads * adjust_val * target_depth / divisor)`,
with the fixed genome base size 3.1e9.  Stated separately from
`calculate_target_read_number` so the two can be compared. -/
def spec_target_read_number (read_len : ℤ) (adjust_val target_depth : ℚ)
    (paired : Bool) : ℤ :=
  pyRound ((pyRound ((3.1e9 : ℚ) / read_len) : ℚ) * adjust_val * target_depth /
    (if paired then (2 : ℚ) else 1))

/- Basic facts about `pyRound`. -/

lemma pyRound_fract_nonneg (q : ℚ) : (0 : ℚ) ≤ q - ⌊q⌋ :=
  sub_nonneg.mpr (Int.floor_le q)

lemma pyRound_fract_lt_one (q : ℚ) : q - ⌊q⌋ < 1 := by
  linarith [Int.lt_floor_add_one q]

lemma pyRound_eq_floor {q : ℚ} (h : q - ⌊q⌋ < 1/2) : pyRound q = ⌊q⌋ := by
  unfold pyRound
  rw [if_pos h]

lemma pyRound_eq_floor_add_one {q : ℚ} (h : 1/2 < q - ⌊q⌋) : pyRound q = ⌊q⌋ + 1 := by
  have h2 : ¬ (q - ⌊q⌋ < 1/2) := by linarith
  unfold pyRound
  rw [if_neg h2, if_pos h]

lemma pyRound_intCast (z : ℤ) : pyRound (z : ℚ) = z := by
  have h : ((z : ℚ) - ⌊(z : ℚ)⌋) < 1/2 := by
    rw [Int.floor_intCast]; simp
  rw [pyRound_eq_floor h, Int.floor_intCast]

lemma pyRound_nonneg {q : ℚ} (h : 0 ≤ q) : 0 ≤ pyRound q := by
  have hf : (0 : ℤ) ≤ ⌊q⌋ := Int.floor_nonneg.mpr h
  unfold pyRound
  split
  · exact hf
  · split
    · omega
    · split
      · exact hf
      · omega

/-- `pyRound` is within a half of its argument. -/
lemma abs_sub_pyRound_le (q : ℚ) : |q - pyRound q| ≤ 1/2 := by
  have h0 := pyRound_fract_nonneg q
  have h1 := pyRound_fract_lt_one q
  unfold pyRound
  split
  · rw [abs_le]; constructor <;> linarith
  · split
    · push_cast
      rw [abs_le]; constructor <;> linarith
    · rename_i hlt hgt
      have heq : q - ⌊q⌋ = 1/2 := le_antisymm (not_lt.mp hgt) (not_lt.mp hlt)
      split
      · rw [abs_le]; constructor <;> linarith
      · push_cast
        rw [abs_le]; constructor <;> linarith

/-- The composite rounding in the paired case differs from halving the
unpaired rounding by at most one. -/
lemma pyRound_half_close (x : ℚ) :
    |pyRound (x / 2) - pyRound ((pyRound x : ℚ) / 2)| ≤ 1 := by
  set u : ℚ := (pyRound x : ℚ) with hu
  have h1 : |x - u| ≤ 1/2 := abs_sub_pyRound_le x
  have h2 : |x/2 - u/2| ≤ 1/4 := by
    rw [show x/2 - u/2 = (x - u)/2 by ring, abs_div, show |(2 : ℚ)| = 2 by norm_num]
    linarith
  have h3 : |x/2 - (pyRound (x/2) : ℚ)| ≤ 1/2 := abs_sub_pyRound_le (x/2)
  have h4 : |u/2 - (pyRound (u/2) : ℚ)| ≤ 1/2 := abs_sub_pyRound_le (u/2)
  have h5 : |(pyRound (x/2) : ℚ) - (pyRound (u/2) : ℚ)| ≤ 5/4 := by
    have t1 := abs_sub_le (pyRound (x/2) : ℚ) (x/2) ((pyRound (u/2) : ℚ))
    have t2 := abs_sub_le (x/2) (u/2) ((pyRound (u/2) : ℚ))
    have t3 : |(pyRound (x/2) : ℚ) - x/2| = |x/2 - (pyRound (x/2) : ℚ)| := abs_sub_comm _ _
    linarith
  have h6 : ((pyRound (x/2) - pyRound (u/2) : ℤ) : ℚ) = (pyRound (x/2) : ℚ) - (pyRound (u/2) : ℚ) := by
    push_cast; ring
  rw [abs_le] at h5 ⊢
  constructor
  · have : ((-2 : ℤ) : ℚ) < ((pyRound (x/2) - pyRound (u/2) : ℤ) : ℚ) := by
      rw [h6]; norm_num; linarith
    have hlt : (-2 : ℤ) < pyRound (x/2) - pyRound (u/2) := by exact_mod_cast this
    omega
  · have : ((pyRound (x/2) - pyRound (u/2) : ℤ) : ℚ) < ((2 : ℤ) : ℚ) := by
      rw [h6]; norm_num; linarith
    have hlt : pyRound (x/2) - pyRound (u/2) < (2 : ℤ) := by exact_mod_cast this
    omega

/- Concrete evaluations used by several witnesses below. -/

/-- `round(3.1e9 / 150) = 20666667`: the fractional part of `62000000/3`
is `2/3 > 1/2`, so Python rounds up. -/
lemma pyRound_base_150 : pyRound (human_base / 150) = 20666667 := by
  have hq : human_base / 150 = 62000000/3 := by norm_num [human_base]
  have hf : ⌊(62000000/3 : ℚ)⌋ = 20666666 := by norm_num
  rw [hq, pyRound_eq_floor_add_one (by rw [hf]; norm_num), hf]
  norm_num

/-- The composite value at the spec's end-to-end scenario
(`read_len = 150`, `adjust_val = 1.2`, `target_depth = 0.5`, paired):
the code returns 6200000. -/
lemma calc_std_eval :
    calculate_target_read_number 150 (1.2 : ℚ) (0.5 : ℚ) true = Except.ok 6200000 := by
  unfold calculate_target_read_number
  rw [if_neg (by norm_num)]
  rw [show (((150 : ℤ) : ℚ)) = (150 : ℚ) from by norm_num, pyRound_base_150]
  have hq : ((20666667 : ℤ) : ℚ) * (1.2 : ℚ) * (0.5 : ℚ) / (if (true : Bool) then (2:ℚ) else 1)
      = 62000001/10 := by norm_num
  have hf : ⌊(62000001/10 : ℚ)⌋ = 6200000 := by norm_num
  rw [hq, pyRound_eq_floor (by rw [hf]; norm_num), hf]

/-- C1: the code computes exactly the formula stated by the spec,
`round(round(3.1e9 / read_len) * adjust_val * target_depth / divisor)`
with `divisor = 2` when paired and `1` otherwise. -/
theorem calculate_target_matches_spec_formula (read_len : ℤ) (adjust_val target_depth : ℚ)
    (paired : Bool) (hL : 0 < read_len) (hA : 0 < adjust_val) (hD : 0 ≤ target_depth) :
    calculate_target_read_number read_len adjust_val target_depth paired =
      Except.ok (spec_target_read_number read_len adjust_val target_depth paired) := by
  unfold calculate_target_read_number spec_target_read_number
  rw [if_neg (by omega)]
  rfl

/-- Witness for C1 at `read_len = 150`, `adjust_val = 1.2`,
`target_depth = 0.5`, paired. -/
theorem calculate_target_matches_spec_formula_witness :
    (0 : ℤ) < 150 ∧ (0 : ℚ) < 1.2 ∧ (0 : ℚ) ≤ 0.5 ∧
    calculate_target_read_number 150 (1.2 : ℚ) (0.5 : ℚ) true =
      Except.ok (spec_target_read_number 150 (1.2 : ℚ) (0.5 : ℚ) true) :=
  ⟨by norm_num, by norm_num, by norm_num,
    calculate_target_matches_spec_formula 150 (1.2 : ℚ) (0.5 : ℚ) true
      (by norm_num) (by norm_num) (by norm_num)⟩

/-- C5 counterexample: at the spec's own end-to-end scenario the function
does not return 12400000 (it returns 6200000: the paired divisor makes the
argument of the outer round `20666667 * 1.2 * 0.5 / 2 = 6200000.1`). -/
theorem calc_at_scenario_ne_12400000 :
    calculate_target_read_number 150 (1.2 : ℚ) (0.5 : ℚ) true ≠ Except.ok 12400000 := by
  rw [calc_std_eval]
  intro h
  have : (6200000 : ℤ) = 12400000 := Except.ok.inj h
  omega

/-- C5 (amended): with `read_len = 150`, `adjust_val = 1.2`,
`target_depth = 0.5` and `paired = True`, the function returns 6200000. -/
theorem calc_at_scenario_eq_6200000 :
    calculate_target_read_number 150 (1.2 : ℚ) (0.5 : ℚ) true = Except.ok 6200000 :=
  calc_std_eval

/-- C6 counterexample: `read_len = -150` is nonpositive, yet the function
does not raise anything: it returns a (negative) value, so the claimed
`InvalidArgument` failure for every `read_len <= 0` is false. -/
theorem calc_no_invalid_argument_on_negative :
    (-150 : ℤ) ≤ 0 ∧
    calculate_target_read_number (-150) (1.2 : ℚ) (0.5 : ℚ) true = Except.ok (-6200000) := by
  refine ⟨by norm_num, ?_⟩
  unfold calculate_target_read_number
  rw [if_neg (by norm_num)]
  have hq : human_base / (-150 : ℤ) = -(62000000/3) := by norm_num [human_base]
  have hf : ⌊(-(62000000/3) : ℚ)⌋ = -20666667 := by norm_num
  have h1 : pyRound (human_base / ((-150 : ℤ) : ℚ)) = -20666667 := by
    push_cast
    rw [show ((-150 : ℚ)) = ((-150 : ℤ) : ℚ) by norm_num, hq,
      pyRound_eq_floor (by rw [hf]; norm_num), hf]
  rw [h1]
  have hq2 : ((-20666667 : ℤ) : ℚ) * (1.2 : ℚ) * (0.5 : ℚ) / (if (true : Bool) then (2:ℚ) else 1)
      = -(62000001/10) := by norm_num
  have hf2 : ⌊(-(62000001/10) : ℚ)⌋ = -6200001 := by norm_num
  rw [hq2, pyRound_eq_floor_add_one (by rw [hf2]; push_cast; norm_num), hf2]
  norm_num

/-- C6 (amended): `calculate_target_read_number` performs no validation of
`read_len`.  It fails exactly when `read_len = 0`, and then with a
division-by-zero error, not `InvalidArgument`; for every nonzero
`read_len` (negative ones included) it returns a value.  It is a pure
function of its arguments (no side effects). -/
theorem calc_error_iff_read_len_zero (read_len : ℤ) (adjust_val target_depth : ℚ)
    (paired : Bool) :
    (read_len = 0 →
      calculate_target_read_number read_len adjust_val target_depth paired =
        Except.error CalcError.zeroDivisionError) ∧
    (read_len ≠ 0 →
      ∃ v, calculate_target_read_number read_len adjust_val target_depth paired =
        Except.ok v) ∧
    (∀ e, calculate_target_read_number read_len adjust_val target_depth paired =
        Except.error e → e = CalcError.zeroDivisionError) := by
  unfold calculate_target_read_number
  refine ⟨fun h => by rw [if_pos h], fun h => ⟨_, by rw [if_neg h]⟩, fun e he => ?_⟩
  by_cases h : read_len = 0
  · rw [if_pos h] at he
    exact (Except.error.inj he).symm
  · rw [if_neg h] at he
    exact absurd he (by simp)

/-- Witness for C6's amended statement: at `read_len = 0` the function
fails with the division-by-zero error. -/
theorem calc_error_iff_read_len_zero_witness :
    calculate_target_read_number 0 (1.2 : ℚ) (0.5 : ℚ) true =
      Except.error CalcError.zeroDivisionError :=
  (calc_error_iff_read_len_zero 0 (1.2 : ℚ) (0.5 : ℚ) true).1 rfl

/-- C8: on valid inputs the computation is deterministic, non-negative, and
the paired result is within one unit of half the unpaired result rounded,
`|paired - round(unpaired / 2)| ≤ 1`. -/
theorem calc_deterministic_nonneg_paired_halving (read_len : ℤ) (adjust_val target_depth : ℚ)
    (paired : Bool) (hL : 0 < read_len) (hA : 0 < adjust_val) (hD : 0 ≤ target_depth) :
    calculate_target_read_number read_len adjust_val target_depth paired =
      calculate_target_read_number read_len adjust_val target_depth paired ∧
    (∃ v, calculate_target_read_number read_len adjust_val target_depth paired =
        Except.ok v ∧ 0 ≤ v) ∧
    (∀ vp vu, calculate_target_read_number read_len adjust_val target_depth true =
        Except.ok vp →
      calculate_target_read_number read_len adjust_val target_depth false =
        Except.ok vu →
      |vp - pyRound ((vu : ℚ) / 2)| ≤ 1) := by
  have hL0 : read_len ≠ 0 := by omega
  have hbase : (0 : ℚ) ≤ human_base / read_len := by
    apply div_nonneg
    · norm_num [human_base]
    · exact_mod_cast hL.le
  have hrc : (0 : ℚ) ≤ (pyRound (human_base / read_len) : ℚ) := by
    exact_mod_cast pyRound_nonneg hbase
  refine ⟨rfl, ?_, ?_⟩
  · refine ⟨_, by unfold calculate_target_read_number; rw [if_neg hL0], ?_⟩
    apply pyRound_nonneg
    apply div_nonneg
    · apply mul_nonneg (mul_nonneg hrc hA.le) hD
    · split <;> norm_num
  · intro vp vu hvp hvu
    unfold calculate_target_read_number at hvp hvu
    rw [if_neg hL0] at hvp hvu
    have hvp2 : vp = pyRound ((pyRound (human_base / read_len) : ℚ) * adjust_val * target_depth / 2) :=
      (Except.ok.inj hvp).symm
    have hvu2 : vu = pyRound ((pyRound (human_base / read_len) : ℚ) * adjust_val * target_depth / 1) :=
      (Except.ok.inj hvu).symm
    rw [hvp2, hvu2, div_one]
    exact pyRound_half_close ((pyRound (human_base / read_len) : ℚ) * adjust_val * target_depth)

/-- Witness for C8 at `read_len = 150`, `adjust_val = 1.2`,
`target_depth = 0.5`. -/
theorem calc_deterministic_nonneg_paired_halving_witness :
    (0 : ℤ) < 150 ∧ (0 : ℚ) < 1.2 ∧ (0 : ℚ) ≤ 0.5 ∧
    ((∃ v, calculate_target_read_number 150 (1.2 : ℚ) (0.5 : ℚ) true =
        Except.ok v ∧ 0 ≤ v) ∧
      (∀ vp vu, calculate_target_read_number 150 (1.2 : ℚ) (0.5 : ℚ) true =
          Except.ok vp →
        calculate_target_read_number 150 (1.2 : ℚ) (0.5 : ℚ) false =
          Except.ok vu →
        |vp - pyRound ((vu : ℚ) / 2)| ≤ 1)) :=
  ⟨by norm_num, by norm_num, by norm_num,
    ((calc_deterministic_nonneg_paired_halving 150 (1.2 : ℚ) (0.5 : ℚ) true
      (by norm_num) (by norm_num) (by norm_num)).2.1),
    ((calc_deterministic_nonneg_paired_halving 150 (1.2 : ℚ) (0.5 : ℚ) true
      (by norm_num) (by norm_num) (by norm_num)).2.2)⟩

/-
The stream of alignment records and the two streaming passes.
-/

variable {π : Type} {α : Type}

/-- An alignment record as the write pass sees it: its query name, its
integer flag bitfield (bit 0x400 is the duplicate marker), and an opaque
payload standing for every other field of the record.  `π` is the payload
type; the passes never inspect it. -/
structure ReadRecord (π : Type) where
  query_name : String
  flag : ℕ
  payload : π
deriving DecidableEq

/-- Lines 235-236 of the source:
`if read.flag & 0x400: read.flag &= ~0x400`.
On Python's unbounded non-negative flags, `& ~0x400` clears exactly bit 10,
which under the guard (the bit is set) is the same as xor with 0x400. -/
def clear_dup (r : ReadRecord π) : ReadRecord π :=
  if r.flag &&& 0x400 ≠ 0 then { r with flag := r.flag ^^^ 0x400 } else r

/-- Lines 233-237 of the source: the second streaming pass.
`for read in fread: if read.query_name in sampled: (clear 0x400 if set); fwrite.write(read)`. -/
def subset_write (src : List (ReadRecord π)) (sampled : Finset String) :
    List (ReadRecord π) :=
  match src with
  | [] => []
  | r :: rest =>
    if r.query_name ∈ sampled then clear_dup r :: subset_write rest sampled
    else subset_write rest sampled

/-- The loop body of `get_unique_query_names` (lines 114-124), with the
`seen_query_names` set as an explicit accumulator. -/
def uniqueNamesAux (records : List (ReadRecord π)) (seen : Finset String) : List String :=
  match records with
  | [] => []
  | r :: rest =>
    if r.query_name ∈ seen then uniqueNamesAux rest seen
    else r.query_name :: uniqueNamesAux rest (insert r.query_name seen)

/-- Lines 114-124 of the source: one streaming pass collecting query names
in first-occurrence order, skipping names already seen. -/
def get_unique_query_names (records : List (ReadRecord π)) : List String :=
  uniqueNamesAux records ∅

/-- Python's `random.sample(population, k)` (line 228), its randomness made
explicit: `rand` is the stream of random draws, and each step removes one
position of the remaining population, chosen by the next draw.  Returns `k`
elements taken at pairwise distinct positions whenever `k` is at most the
population size. -/
def sample (population : List α) (k : ℕ) (rand : ℕ → ℕ) : List α :=
  match k with
  | 0 => []
  | Nat.succ k2 =>
    if h : 0 < population.length then
      population.get ⟨rand k2 % population.length, Nat.mod_lt _ h⟩ ::
        sample (population.eraseIdx (rand k2 % population.length)) k2 rand
    else []

/-- Failures of the `__call__` driver. -/
inductive PipelineError where
  | calcFailed (e : CalcError)
  | insufficientPopulation (unique_count : ℕ) (target_read_count : ℤ)
  | negativeSampleSize
deriving DecidableEq

/-- The numeric arguments of the command-line surface that reach the core. -/
structure Args where
  read_len : ℤ
  adjust_val : ℚ
  target_depth : ℚ
  paired : Bool

/-- Lines 199-237 of the source, the core of `__call__`: compute the target
read count, collect the unique query names, raise when the target exceeds
the number of unique names (lines 225-226, before the output file is
opened), otherwise draw the sample (line 228) and run the write pass
(lines 231-237).  An `Except.error` result models a raised exception with
no output file created; the external `gatk` steps after the write pass are
out of scope. -/
def run_pipeline (records : List (ReadRecord π)) (a : Args) (rand : ℕ → ℕ) :
    Except PipelineError (List (ReadRecord π)) :=
  match calculate_target_read_number a.read_len a.adjust_val a.target_depth a.paired with
  | .error e => .error (.calcFailed e)
  | .ok target_read_count =>
    if ((get_unique_query_names records).length : ℤ) < target_read_count then
      .error (.insufficientPopulation (get_unique_query_names records).length
        target_read_count)
    else if target_read_count < 0 then .error .negativeSampleSize
    else
      .ok (subset_write records
        ((sample (get_unique_query_names records) target_read_count.toNat rand).toFinset))

/- Facts about the flag-clearing step and the write pass. -/

lemma flag_and_ne_zero_iff (n : ℕ) : n &&& 0x400 ≠ 0 ↔ n.testBit 10 = true := by
  rw [show (0x400 : ℕ) = 2 ^ 10 from by norm_num, Nat.and_two_pow]
  cases h : n.testBit 10 <;> simp

lemma clear_dup_query_name (r : ReadRecord π) :
    (clear_dup r).query_name = r.query_name := by
  unfold clear_dup
  split <;> rfl

lemma clear_dup_payload (r : ReadRecord π) : (clear_dup r).payload = r.payload := by
  unfold clear_dup
  split <;> rfl

lemma clear_dup_of_not_set {r : ReadRecord π} (h : r.flag.testBit 10 = false) :
    clear_dup r = r := by
  unfold clear_dup
  rw [if_neg]
  rw [flag_and_ne_zero_iff, h]
  simp

lemma clear_dup_flag_testBit (r : ReadRecord π) (i : ℕ) :
    (clear_dup r).flag.testBit i = (r.flag.testBit i && decide (i ≠ 10)) := by
  unfold clear_dup
  by_cases h : r.flag &&& 0x400 ≠ 0
  · rw [if_pos h]
    have hset : r.flag.testBit 10 = true := (flag_and_ne_zero_iff _).mp h
    show (r.flag ^^^ 0x400).testBit i = _
    rw [show (0x400 : ℕ) = 2 ^ 10 from by norm_num, Nat.testBit_xor]
    by_cases hi : i = 10
    · subst hi
      rw [Nat.testBit_two_pow_self, hset]
      simp
    · rw [Nat.testBit_two_pow_of_ne (fun he => hi he.symm)]
      simp [hi]
  · rw [if_neg h]
    have hz : r.flag.testBit 10 = false := by
      rcases Bool.eq_false_or_eq_true (r.flag.testBit 10) with ht | hf
      · exact absurd ((flag_and_ne_zero_iff _).mpr ht) h
      · exact hf
    by_cases hi : i = 10
    · subst hi
      simp [hz]
    · simp [hi]

/-- The write pass is exactly: filter by sampled membership, then clear the
duplicate bit of each retained record, in source order. -/
lemma subset_write_eq (src : List (ReadRecord π)) (s : Finset String) :
    subset_write src s =
      (src.filter (fun r => decide (r.query_name ∈ s))).map clear_dup := by
  induction src with
  | nil => rfl
  | cons r rest ih =>
    by_cases h : r.query_name ∈ s <;>
      simp [subset_write, ih, h, List.filter_cons]

/-- C2: the write pass emits exactly the records whose query name is in the
sampled set, in their source order (it is the in-order filter of the stream,
with the duplicate bit cleared on each emitted record); every emitted record
has bit 0x400 clear, and every emitted record's identity is sampled. -/
theorem subset_write_spec (src : List (ReadRecord π)) (s : Finset String) :
    subset_write src s =
      (src.filter (fun r => decide (r.query_name ∈ s))).map clear_dup ∧
    (∀ o ∈ subset_write src s, o.query_name ∈ s) ∧
    (∀ o ∈ subset_write src s, o.flag.testBit 10 = false) := by
  refine ⟨subset_write_eq src s, ?_, ?_⟩
  · intro o ho
    rw [subset_write_eq] at ho
    rcases List.mem_map.mp ho with ⟨r, hr, he⟩
    rcases List.mem_filter.mp hr with ⟨_, hkeep⟩
    rw [← he, clear_dup_query_name]
    simpa using hkeep
  · intro o ho
    rw [subset_write_eq] at ho
    rcases List.mem_map.mp ho with ⟨r, _, he⟩
    rw [← he, clear_dup_flag_testBit]
    simp

/-- C10: every emitted record is the image of a retained source record,
unchanged except for the duplicate bit: query name and payload are
preserved, the flag is exactly the original when bit 0x400 was clear, and
otherwise is the original with exactly bit 0x400 cleared (all other bits
preserved). -/
theorem subset_write_frame (src : List (ReadRecord π)) (s : Finset String)
    (o : ReadRecord π) (ho : o ∈ subset_write src s) :
    ∃ r, r ∈ src ∧ r.query_name ∈ s ∧ o.query_name = r.query_name ∧
      o.payload = r.payload ∧
      (r.flag.testBit 10 = false → o.flag = r.flag) ∧
      (∀ i, o.flag.testBit i = (r.flag.testBit i && decide (i ≠ 10))) := by
  rw [subset_write_eq] at ho
  rcases List.mem_map.mp ho with ⟨r, hr, he⟩
  rcases List.mem_filter.mp hr with ⟨hmem, hkeep⟩
  refine ⟨r, hmem, by simpa using hkeep, ?_, ?_, ?_, ?_⟩
  · rw [← he, clear_dup_query_name]
  · rw [← he, clear_dup_payload]
  · intro hbit
    rw [← he, clear_dup_of_not_set hbit]
  · intro i
    rw [← he, clear_dup_flag_testBit]

/-- Witness for C10 on a one-record stream whose identity is sampled. -/
theorem subset_write_frame_witness :
    ∃ r, r ∈ [ReadRecord.mk "a" 0 (7 : ℕ)] ∧
      r.query_name ∈ ({"a"} : Finset String) ∧
      (ReadRecord.mk "a" 0 (7 : ℕ)).query_name = r.query_name ∧
      (ReadRecord.mk "a" 0 (7 : ℕ)).payload = r.payload ∧
      (r.flag.testBit 10 = false → (ReadRecord.mk "a" 0 (7 : ℕ)).flag = r.flag) ∧
      (∀ i, (ReadRecord.mk "a" 0 (7 : ℕ)).flag.testBit i =
        (r.flag.testBit i && decide (i ≠ 10))) :=
  subset_write_frame [ReadRecord.mk "a" 0 (7 : ℕ)] {"a"} (ReadRecord.mk "a" 0 (7 : ℕ))
    (by simp [subset_write, clear_dup])

/-- Membership of a record's image in the write pass output is decided
solely by its query name's membership in the sampled set. -/
lemma clear_dup_mem_subset_write_iff (src : List (ReadRecord π)) (s : Finset String)
    {r : ReadRecord π} (hr : r ∈ src) :
    clear_dup r ∈ subset_write src s ↔ r.query_name ∈ s := by
  rw [subset_write_eq]
  constructor
  · intro hmem
    rcases List.mem_map.mp hmem with ⟨r2, hr2, he⟩
    rcases List.mem_filter.mp hr2 with ⟨_, hkeep⟩
    have hq : r2.query_name = r.query_name := by
      rw [← clear_dup_query_name r2, he, clear_dup_query_name]
    rw [← hq]
    simpa using hkeep
  · intro hmem
    exact List.mem_map.mpr ⟨r, List.mem_filter.mpr ⟨hr, by simpa using hmem⟩, rfl⟩

/-- C9: the selected subset is fragment-consistent.  For any two records of
the stream sharing a query name (the two mates of a pair), the image of one
is emitted if and only if the image of the other is: membership is decided
solely by the shared identity's presence in the sampled set. -/
theorem subset_write_fragment_consistent (src : List (ReadRecord π))
    (s : Finset String) (r1 r2 : ReadRecord π) (h1 : r1 ∈ src) (h2 : r2 ∈ src)
    (hq : r1.query_name = r2.query_name) :
    (clear_dup r1 ∈ subset_write src s ↔ clear_dup r2 ∈ subset_write src s) := by
  rw [clear_dup_mem_subset_write_iff src s h1, clear_dup_mem_subset_write_iff src s h2, hq]

/-- Witness for C9 on a two-record stream forming one pair. -/
theorem subset_write_fragment_consistent_witness :
    (clear_dup (ReadRecord.mk "a" 0 (1 : ℕ)) ∈
        subset_write [ReadRecord.mk "a" 0 (1 : ℕ), ReadRecord.mk "a" 0 (2 : ℕ)]
          ({"a"} : Finset String) ↔
      clear_dup (ReadRecord.mk "a" 0 (2 : ℕ)) ∈
        subset_write [ReadRecord.mk "a" 0 (1 : ℕ), ReadRecord.mk "a" 0 (2 : ℕ)]
          ({"a"} : Finset String)) :=
  subset_write_fragment_consistent _ _ _ _ (by simp) (by simp) rfl

/- Facts about the identity-collecting pass. -/

lemma mem_uniqueNamesAux (l : List (ReadRecord π)) (seen : Finset String) (x : String) :
    x ∈ uniqueNamesAux l seen ↔
      x ∈ l.map (fun r => r.query_name) ∧ x ∉ seen := by
  induction l generalizing seen with
  | nil => simp [uniqueNamesAux]
  | cons r rest ih =>
    by_cases h : r.query_name ∈ seen
    · rw [uniqueNamesAux, if_pos h, ih, List.map_cons, List.mem_cons]
      constructor
      · rintro ⟨hm, hs⟩
        exact ⟨Or.inr hm, hs⟩
      · rintro ⟨he | hm, hs⟩
        · exact absurd (he ▸ h) hs
        · exact ⟨hm, hs⟩
    · rw [uniqueNamesAux, if_neg h, List.mem_cons, ih, List.map_cons, List.mem_cons]
      constructor
      · rintro (he | ⟨hm, hs⟩)
        · exact ⟨Or.inl he, he ▸ h⟩
        · rw [Finset.mem_insert] at hs
          push_neg at hs
          exact ⟨Or.inr hm, hs.2⟩
      · rintro ⟨he | hm, hs⟩
        · exact Or.inl he
        · by_cases hx : x = r.query_name
          · exact Or.inl hx
          · refine Or.inr ⟨hm, ?_⟩
            rw [Finset.mem_insert]
            push_neg
            exact ⟨hx, hs⟩

lemma not_mem_seen_of_mem_uniqueNamesAux {l : List (ReadRecord π)} {seen : Finset String}
    {x : String} (h : x ∈ uniqueNamesAux l seen) : x ∉ seen :=
  ((mem_uniqueNamesAux l seen x).mp h).2

lemma nodup_uniqueNamesAux (l : List (ReadRecord π)) (seen : Finset String) :
    (uniqueNamesAux l seen).Nodup := by
  induction l generalizing seen with
  | nil => simp [uniqueNamesAux]
  | cons r rest ih =>
    by_cases h : r.query_name ∈ seen
    · rw [uniqueNamesAux, if_pos h]
      exact ih seen
    · rw [uniqueNamesAux, if_neg h]
      refine List.nodup_cons.mpr ⟨?_, ih _⟩
      intro hmem
      exact not_mem_seen_of_mem_uniqueNamesAux hmem (Finset.mem_insert_self _ _)

lemma pairwise_uniqueNamesAux (l : List (ReadRecord π)) (seen : Finset String) :
    List.Pairwise (fun x y =>
      List.indexOf x (l.map fun r => r.query_name) <
        List.indexOf y (l.map fun r => r.query_name)) (uniqueNamesAux l seen) := by
  induction l generalizing seen with
  | nil => simp [uniqueNamesAux]
  | cons r rest ih =>
    by_cases h : r.query_name ∈ seen
    · rw [uniqueNamesAux, if_pos h]
      refine List.Pairwise.imp_of_mem ?_ (ih seen)
      intro a b ha hb hab
      have hane : r.query_name ≠ a :=
        fun he => not_mem_seen_of_mem_uniqueNamesAux ha (he ▸ h)
      have hbne : r.query_name ≠ b :=
        fun he => not_mem_seen_of_mem_uniqueNamesAux hb (he ▸ h)
      rw [List.map_cons, List.indexOf_cons_ne _ hane, List.indexOf_cons_ne _ hbne]
      exact Nat.succ_lt_succ hab
    · rw [uniqueNamesAux, if_neg h]
      refine List.pairwise_cons.mpr ⟨?_, ?_⟩
      · intro y hy
        have hyne : r.query_name ≠ y := fun he =>
          not_mem_seen_of_mem_uniqueNamesAux hy (he ▸ Finset.mem_insert_self _ _)
        rw [List.map_cons, List.indexOf_cons_self, List.indexOf_cons_ne _ hyne]
        exact Nat.succ_pos _
      · refine List.Pairwise.imp_of_mem ?_ (ih (insert r.query_name seen))
        intro a b ha hb hab
        have hane : r.query_name ≠ a := fun he =>
          not_mem_seen_of_mem_uniqueNamesAux ha (he ▸ Finset.mem_insert_self _ _)
        have hbne : r.query_name ≠ b := fun he =>
          not_mem_seen_of_mem_uniqueNamesAux hb (he ▸ Finset.mem_insert_self _ _)
        rw [List.map_cons, List.indexOf_cons_ne _ hane, List.indexOf_cons_ne _ hbne]
        exact Nat.succ_lt_succ hab

/-- C4: `get_unique_query_names` returns the distinct query names of the
stream, without duplicates, one entry per distinct name (so exactly U
entries when the stream holds U distinct names), ordered by first
occurrence in the stream; it returns the empty list on the empty stream,
and re-running it on the same stream content yields the same result. -/
theorem get_unique_query_names_spec (records : List (ReadRecord π)) :
    (get_unique_query_names records).Nodup ∧
    (get_unique_query_names records).toFinset =
      (records.map fun r => r.query_name).toFinset ∧
    (get_unique_query_names records).length =
      (records.map fun r => r.query_name).toFinset.card ∧
    List.Pairwise (fun x y =>
      List.indexOf x (records.map fun r => r.query_name) <
        List.indexOf y (records.map fun r => r.query_name))
      (get_unique_query_names records) ∧
    get_unique_query_names ([] : List (ReadRecord π)) = [] ∧
    get_unique_query_names records = get_unique_query_names records := by
  have hnd : (get_unique_query_names records).Nodup := nodup_uniqueNamesAux records ∅
  have hts : (get_unique_query_names records).toFinset =
      (records.map fun r => r.query_name).toFinset := by
    ext x
    rw [List.mem_toFinset, List.mem_toFinset, get_unique_query_names,
      mem_uniqueNamesAux]
    simp
  refine ⟨hnd, hts, ?_, pairwise_uniqueNamesAux records ∅, rfl, rfl⟩
  rw [← hts, List.toFinset_card_of_nodup hnd]

/- Facts about the sampling step. -/

lemma perm_get_cons_eraseIdx (l : List α) (j : ℕ) (hj : j < l.length) :
    l.Perm (l.get ⟨j, hj⟩ :: l.eraseIdx j) := by
  have h1 : l = List.take j l ++ l.get ⟨j, hj⟩ :: List.drop (j + 1) l := by
    rw [List.get_eq_getElem, ← List.drop_eq_getElem_cons hj, List.take_append_drop]
  rw [List.eraseIdx_eq_take_drop_succ]
  nth_rewrite 1 [h1]
  exact List.perm_middle

/-- The selected elements together with some leftover are a permutation of
the population, and exactly `k` elements are selected, whenever `k` is at
most the population size. -/
lemma sample_perm (k : ℕ) : ∀ (pop : List α) (rand : ℕ → ℕ), k ≤ pop.length →
    ∃ rest, pop.Perm (sample pop k rand ++ rest) ∧ (sample pop k rand).length = k := by
  induction k with
  | zero =>
    intro pop rand h
    exact ⟨pop, by simp [sample], by simp [sample]⟩
  | succ k2 ih =>
    intro pop rand h
    have hpos : 0 < pop.length := by omega
    have hj : rand k2 % pop.length < pop.length := Nat.mod_lt _ hpos
    have hlen : (pop.eraseIdx (rand k2 % pop.length)).length + 1 = pop.length :=
      List.length_eraseIdx_add_one hj
    have hk2 : k2 ≤ (pop.eraseIdx (rand k2 % pop.length)).length := by omega
    rcases ih (pop.eraseIdx (rand k2 % pop.length)) rand hk2 with ⟨rest, hperm, hlen2⟩
    have hs : sample pop (Nat.succ k2) rand =
        pop.get ⟨rand k2 % pop.length, hj⟩ ::
          sample (pop.eraseIdx (rand k2 % pop.length)) k2 rand := by
      rw [sample, dif_pos hpos]
    refine ⟨rest, ?_, ?_⟩
    · rw [hs, List.cons_append]
      exact (perm_get_cons_eraseIdx pop _ hj).trans (hperm.cons _)
    · rw [hs, List.length_cons, hlen2]

/-- C7: on a duplicate-free identity list and any `0 ≤ k ≤ |ids|`, the
sampled set `set(sample(ids, k))` has exactly `k` elements, each drawn from
`ids`; with `k = |ids|` it is the full identity set and with `k = 0` it is
empty.  The random draws are the explicit stream `rand`. -/
theorem sample_spec (ids : List String) (k : ℕ) (rand : ℕ → ℕ)
    (hnd : ids.Nodup) (hk : k ≤ ids.length) :
    ((sample ids k rand).toFinset.card = k ∧
      ∀ x ∈ (sample ids k rand).toFinset, x ∈ ids) ∧
    (k = ids.length → (sample ids k rand).toFinset = ids.toFinset) ∧
    (k = 0 → (sample ids k rand).toFinset = ∅) := by
  rcases sample_perm k ids rand hk with ⟨rest, hperm, hlen⟩
  have hnd2 : (sample ids k rand ++ rest).Nodup := hperm.nodup hnd
  have hnds : (sample ids k rand).Nodup :=
    (List.sublist_append_left _ _).nodup hnd2
  refine ⟨⟨?_, ?_⟩, ?_, ?_⟩
  · rw [List.toFinset_card_of_nodup hnds, hlen]
  · intro x hx
    rw [List.mem_toFinset] at hx
    exact hperm.mem_iff.mpr (List.mem_append.mpr (Or.inl hx))
  · intro hkeq
    have hrl : rest.length = 0 := by
      have hle := hperm.length_eq
      rw [List.length_append, hlen] at hle
      omega
    rw [List.eq_nil_of_length_eq_zero hrl, List.append_nil] at hperm
    exact (List.toFinset_eq_of_perm _ _ hperm).symm
  · intro hk0
    subst hk0
    simp [sample]

/-- Witness for C7 on the three-identity list with `k = 2` and the
constant-zero random stream. -/
theorem sample_spec_witness :
    (((sample ["a", "b", "c"] 2 (fun _ => 0)).toFinset.card = 2 ∧
      ∀ x ∈ (sample ["a", "b", "c"] 2 (fun _ => 0)).toFinset, x ∈ ["a", "b", "c"]) ∧
    (2 = (["a", "b", "c"] : List String).length →
      (sample ["a", "b", "c"] 2 (fun _ => 0)).toFinset =
        (["a", "b", "c"] : List String).toFinset) ∧
    (2 = 0 → (sample ["a", "b", "c"] 2 (fun _ => 0)).toFinset = ∅)) :=
  sample_spec ["a", "b", "c"] 2 (fun _ => 0) (by decide) (by decide)

/- The driver's precondition failure. -/

/-- The computed target at the C3 witness scenario: `read_len = 150`,
`adjust_val = 1.2`, `target_depth = 30`, unpaired, giving
`round(20666667 * 1.2 * 30) = 744000012`. -/
lemma calc_150_12_30_false :
    calculate_target_read_number 150 (1.2 : ℚ) 30 false = Except.ok 744000012 := by
  unfold calculate_target_read_number
  rw [if_neg (by norm_num)]
  rw [show (((150 : ℤ) : ℚ)) = (150 : ℚ) from by norm_num, pyRound_base_150]
  have hq : ((20666667 : ℤ) : ℚ) * (1.2 : ℚ) * 30 / (if (false : Bool) then (2:ℚ) else 1)
      = ((744000012 : ℤ) : ℚ) := by norm_num
  rw [hq, pyRound_intCast]

/-- C3: whenever the computed target read count `k` exceeds the number of
unique query names, the run fails with the insufficient-population error
carrying both the unique-name count and `k`, and produces no output
(`Except.ok` is never returned, modelling that the output BAM is never
opened: the raise at lines 225-226 precedes the write pass). -/
theorem insufficient_population_aborts (records : List (ReadRecord π)) (a : Args)
    (rand : ℕ → ℕ) (k : ℤ)
    (hcalc : calculate_target_read_number a.read_len a.adjust_val a.target_depth
      a.paired = Except.ok k)
    (hk : ((get_unique_query_names records).length : ℤ) < k) :
    run_pipeline records a rand =
      Except.error (PipelineError.insufficientPopulation
        (get_unique_query_names records).length k) ∧
    ∀ out, run_pipeline records a rand ≠ Except.ok out := by
  have h1 : run_pipeline records a rand =
      Except.error (PipelineError.insufficientPopulation
        (get_unique_query_names records).length k) := by
    unfold run_pipeline
    rw [hcalc]
    simp only [if_pos hk]
  refine ⟨h1, fun out hout => ?_⟩
  rw [h1] at hout
  exact absurd hout (by simp)

/-- Witness for C3: one unique identity, target 744000012. -/
theorem insufficient_population_aborts_witness :
    (run_pipeline [ReadRecord.mk "a" 0 (0 : ℕ)] (Args.mk 150 (1.2 : ℚ) 30 false)
        (fun _ => 0) =
      Except.error (PipelineError.insufficientPopulation
        (get_unique_query_names [ReadRecord.mk "a" 0 (0 : ℕ)]).length 744000012) ∧
    ∀ out, run_pipeline [ReadRecord.mk "a" 0 (0 : ℕ)] (Args.mk 150 (1.2 : ℚ) 30 false)
        (fun _ => 0) ≠ Except.ok out) :=
  insufficient_population_aborts [ReadRecord.mk "a" 0 (0 : ℕ)]
    (Args.mk 150 (1.2 : ℚ) 30 false) (fun _ => 0) 744000012 calc_150_12_30_false
    (by simp [get_unique_query_names, uniqueNamesAux])

end PairedSubsampling
